import Mathlib

/-!
Verification of the Toto jackpot scraper (jackpot.js and its puppeteer
variant) against its natural-language specification.

The development shallowly embeds the program's core logic:

* `cleanJackpotValue` — the value extraction / normalization routine
  (jackpot.js lines 58-90);
* `retryRequest` — the resilient operation runner with exponential
  backoff (jackpot.js lines 24-51, and the puppeteer variant's copy);
* `scrapeAndNotify` — the fetch → locate → clean → format → send
  pipeline (jackpot.js lines 124-207).

JS strings are embedded as `List Char`; JS numbers used for delays and
attempt counts are `Nat`/`Int`; the numeric plausibility magnitude
(`parseFloat`) is embedded as an exact rational (`ℚ`), which agrees
with the IEEE double on every comparison performed by the program for
the magnitudes involved.  Fallible code returns `Except`/`Option`.
Console output is a side channel that does not affect control flow and
is not modelled, except that the plausibility verdict it would report
is returned alongside the cleaned value.
-/

/-- The set matched by the JS regex class `\s` (ECMAScript WhiteSpace ∪
LineTerminator): tab, LF, VT, FF, CR, space, NBSP, and the Unicode
space separators, used by `replace(/\s+/g, " ")` and `trim()`. -/
def isJsSpace (c : Char) : Bool :=
  c = '\t' || c = '\n' || c.val = 11 || c.val = 12 || c = '\r' || c = ' ' ||
  c.val = 0xa0 || c.val = 0x1680 || (0x2000 ≤ c.val && c.val ≤ 0x200a) ||
  c.val = 0x2028 || c.val = 0x2029 || c.val = 0x202f || c.val = 0x205f ||
  c.val = 0x3000 || c.val = 0xfeff

/-- The Bulgarian currency-marker word removed by
`rawValue.split("лева")[0]` (jackpot.js line 64). -/
def levaMarker : List Char := "лева".toList

/-- The currency suffix appended by `cleaned + " лв."` (line 70). -/
def currencySuffix : List Char := " лв.".toList

/-- `startsWith m s` holds when the characters of `m` occur verbatim at
the head of `s` — the matching primitive behind `String.prototype.split`
and `String.prototype.includes`. -/
def startsWith : List Char → List Char → Bool
  | [], _ => true
  | _ :: _, [] => false
  | c :: m, d :: s => if c = d then startsWith m s else false

/-- JS `hay.includes(needle)`: some position of `hay` starts with
`needle`. -/
def containsSub (needle : List Char) : List Char → Bool
  | [] => needle.isEmpty
  | c :: rest => startsWith needle (c :: rest) || containsSub needle rest

/-- Number of positions of `hay` at which `needle` occurs (used to state
the suffix-count properties of the specification). -/
def countOccurrences (needle : List Char) : List Char → Nat
  | [] => 0
  | c :: rest =>
    (if startsWith needle (c :: rest) then 1 else 0) + countOccurrences needle rest

/-- `s.split(marker)[0]`: the text of `s` strictly before the first
occurrence of `marker`, or all of `s` when `marker` does not occur
(jackpot.js line 64). -/
def takeUntilMarker (marker : List Char) : List Char → List Char
  | [] => []
  | c :: rest =>
    if startsWith marker (c :: rest) then []
    else c :: takeUntilMarker marker rest

/-- Worker for `replace(/\s+/g, " ")`: `prevWs` records whether the
previous character belonged to a whitespace run already replaced by a
single space. -/
def collapseGo : Bool → List Char → List Char
  | _, [] => []
  | prevWs, c :: rest =>
    if isJsSpace c then
      if prevWs then collapseGo true rest
      else ' ' :: collapseGo true rest
    else c :: collapseGo false rest

/-- `s.replace(/\s+/g, " ")` (jackpot.js line 67): every maximal run of
whitespace becomes one ASCII space. -/
def wsCollapse (s : List Char) : List Char := collapseGo false s

/-- JS `s.trim()` (jackpot.js line 67): strip leading and trailing
whitespace. -/
def jsTrim (s : List Char) : List Char :=
  ((s.dropWhile isJsSpace).reverse.dropWhile isJsSpace).reverse

/-- Value of a digit string read in base 10. -/
def digitsToNat (ds : List Char) : Nat :=
  ds.foldl (fun acc c => 10 * acc + (c.toNat - 48)) 0

/-- `cleaned.replace(/[^\d.]/g, "")` (jackpot.js line 78): keep only
decimal digits and the decimal separator. -/
def stripNonNumeric (s : List Char) : List Char :=
  s.filter (fun c => c.isDigit || c = '.')

/-- JS `parseFloat` restricted to the strings the program feeds it —
strings consisting solely of digits and dots (the residue of
`stripNonNumeric`).  On those, `parseFloat` reads the longest prefix of
the form `digits`, `digits.digits?` or `.digits` and yields its value,
and `NaN` (here `none`) when no such prefix exists.  The value
`intPart + fracPart / 10 ^ fracLen` is embedded as the exact rational
`mkRat (intPart * 10 ^ fracLen + fracPart) (10 ^ fracLen)`. -/
def jsParseFloat (s : List Char) : Option ℚ :=
  match s.takeWhile Char.isDigit, s.dropWhile Char.isDigit with
  | [], '.' :: rest2 =>
    match rest2.takeWhile Char.isDigit with
    | [] => none
    | frac => some (mkRat (Int.ofNat (digitsToNat frac)) (10 ^ frac.length))
  | [], _ => none
  | intDs, '.' :: rest2 =>
    some (mkRat
      (Int.ofNat (digitsToNat intDs * 10 ^ (rest2.takeWhile Char.isDigit).length +
        digitsToNat (rest2.takeWhile Char.isDigit)))
      (10 ^ (rest2.takeWhile Char.isDigit).length))
  | intDs, _ => some (mkRat (Int.ofNat (digitsToNat intDs)) 1)

/-- The plausibility classification of a cleaned value's numeric
magnitude (spec §4.2 step 6). -/
inductive Verdict where
  | withinRange
  | suspiciouslyLow
  | suspiciouslyHigh
deriving DecidableEq

/-- The range check of jackpot.js lines 78-87: strip non-numeric
characters, parse, warn below 1000 or above 100000000.  `NaN`
(`none`) compares false on both bounds, hence `withinRange`. -/
def classify (s : List Char) : Verdict :=
  match jsParseFloat (stripNonNumeric s) with
  | none => .withinRange
  | some q =>
    if q < 1000 then .suspiciouslyLow
    else if 100000000 < q then .suspiciouslyHigh
    else .withinRange

/-- The two failure kinds of `cleanJackpotValue` (spec §7:
`empty-input` and `no-digits`). -/
inductive CleanError where
  | emptyInput
  | noDigits
deriving DecidableEq

/-- jackpot.js lines 58-90.  Input `none` embeds an absent (null /
undefined) raw value; `some []` the empty string — both are falsy for
`if (!rawValue)`.  The returned pair carries the cleaned value together
with the advisory plausibility verdict the code reports via
`console.warn`; the verdict never affects the returned value. -/
def cleanJackpotValue : Option (List Char) → Except CleanError (List Char × Verdict)
  | none => .error .emptyInput
  | some rawValue =>
    if rawValue = [] then .error .emptyInput
    else
      let cleaned := jsTrim (wsCollapse (takeUntilMarker levaMarker rawValue)) ++ currencySuffix
      if cleaned.any Char.isDigit then .ok (cleaned, classify cleaned)
      else .error .noDigits

deriving instance DecidableEq for Except

/-- The fixed Telegram message template of jackpot.js line 174. -/
def messageHead : List Char := "💰 The current Toto jackpot is: *".toList

/-- `` `💰 The current Toto jackpot is: *${jackpotValueClean}*` `` -/
def formatMessage (v : List Char) : List Char := messageHead ++ v ++ ['*']

/-- The configured retry cap (`MAX_RETRIES = 3`, jackpot.js line 13).
JS numbers may be negative, so the parameter is an `Int`. -/
def MAX_RETRIES : Int := 3

/-- The configured base backoff delay in milliseconds
(`RETRY_DELAY = 2000`, jackpot.js line 14). -/
def RETRY_DELAY : Nat := 2000

/-- The configured request timeout in milliseconds
(`REQUEST_TIMEOUT = 30000`, jackpot.js line 12); enforced by the
external HTTP client, recorded here only as the constant. -/
def REQUEST_TIMEOUT : Nat := 30000

/-- The shape of the JS error objects inspected by both retry loops:
`name` and `message` (every `Error`), the optional network error `code`
string, and the optional HTTP `response.status` (absent when there was
no upstream response). -/
structure JsError where
  name : String
  message : List Char
  code : Option String
  responseStatus : Option Int
deriving DecidableEq

def codeECONNABORTED : String := "ECONNABORTED"

def codeETIMEDOUT : String := "ETIMEDOUT"

def codeENOTFOUND : String := "ENOTFOUND"

def codeECONNREFUSED : String := "ECONNREFUSED"

def nameTimeoutError : String := "TimeoutError"

def navigatingWord : List Char := "navigating".toList

/-- The retriability test of jackpot.js lines 30-35: the four axios
network codes, or an upstream response with status ≥ 500. -/
def isRetriableError (e : JsError) : Bool :=
  decide (e.code = some codeECONNABORTED) ||
  decide (e.code = some codeETIMEDOUT) ||
  decide (e.code = some codeENOTFOUND) ||
  decide (e.code = some codeECONNREFUSED) ||
  (match e.responseStatus with
   | some s => decide (500 ≤ s)
   | none => false)

/-- The retriability test of the puppeteer variant (part_001 lines
208-211): `TimeoutError` name, a message mentioning "navigating", or
`ECONNREFUSED`. -/
def isRetriablePuppeteer (e : JsError) : Bool :=
  decide (e.name = nameTimeoutError) ||
  containsSub navigatingWord e.message ||
  decide (e.code = some codeECONNREFUSED)

/-- Result of one `retryRequest` run.  `outcome = some (.ok v)` embeds
a promise resolved with the operation's value, `some (.error e)` a
rejection with error `e`, and `none` resolution with `undefined` (the
loop body never returned — only possible when it runs zero times).
`calls` counts invocations of the operation and `totalDelay` the sum
of backoff sleeps in milliseconds. -/
structure RunResult (α : Type) where
  outcome : Option (Except JsError α)
  calls : Nat
  totalDelay : Nat
deriving DecidableEq

/-- The body of `retryRequest`'s `for` loop (jackpot.js lines 25-50),
walking the list of attempt numbers.  The operation is embedded as a
function of the invocation index (the loop invokes it exactly once per
iteration, so invocation index = attempt number).  On failure the loop
re-raises when the attempt equals `retries` or the error is not
retriable, and otherwise sleeps `baseDelay * 2 ^ attempt` and
continues. -/
def retryLoop (requestFn : Nat → Except JsError α) (retriable : JsError → Bool)
    (baseDelay : Nat) (retries : Int) :
    List Nat → Nat → Nat → RunResult α
  | [], calls, delaySum => ⟨none, calls, delaySum⟩
  | attempt :: rest, calls, delaySum =>
    match requestFn attempt with
    | .ok v => ⟨some (.ok v), calls + 1, delaySum⟩
    | .error e =>
      if decide ((attempt : Int) = retries) || !retriable e then
        ⟨some (.error e), calls + 1, delaySum⟩
      else
        retryLoop requestFn retriable baseDelay retries rest (calls + 1)
          (delaySum + baseDelay * 2 ^ attempt)

/-- The attempt numbers `for (let attempt = 0; attempt <= retries;
attempt++)` iterates over: `0, …, retries`, empty when `retries < 0`. -/
def attemptSchedule (retries : Int) : List Nat :=
  if retries < 0 then [] else List.range (retries.toNat + 1)

/-- `retryRequest(requestFn, retries)` (jackpot.js lines 24-51).  The
retriability classifier is a parameter so that the axios variant
(`isRetriableError`) and the puppeteer variant (`isRetriablePuppeteer`)
— whose loops are otherwise identical — share the embedding. -/
def retryRequest (requestFn : Nat → Except JsError α) (retriable : JsError → Bool)
    (baseDelay : Nat) (retries : Int) : RunResult α :=
  retryLoop requestFn retriable baseDelay retries (attemptSchedule retries) 0 0

/-- The external collaborators the pipeline consumes (spec §6): the
page fetcher and the message sender are attempt-indexed fallible
operations run through `retryRequest`; the element locator returns the
located element's text or `none` when the selector matches nothing. -/
structure Collab where
  fetchPage : Nat → Except JsError (List Char)
  locate : List Char → Option (List Char)
  send : List Char → Nat → Except JsError Unit

/-- The failure kinds a pipeline run can end with (jackpot.js lines
157-206: every throw inside the `try` is caught once and ends the
run). -/
inductive RunError where
  | fetchFailed (e : JsError)
  | fetchUndefined
  | elementNotFound
  | cleanFailed (e : CleanError)
  | sendFailed (e : JsError)
deriving DecidableEq

/-- Result of one `scrapeAndNotify` run: the final outcome (`.ok`
carries the delivered message text), plus how often the element
locator and the message sender were invoked. -/
structure PipelineResult where
  outcome : Except RunError (List Char)
  locateCalls : Nat
  sendCalls : Nat
deriving DecidableEq

/-- The `try` block of `scrapeAndNotify` (jackpot.js lines 140-206),
after the credential check: fetch through `retryRequest`, locate the
jackpot element once (`$("div.jackpot-value").first()`), clean the
text, format the message, send through `retryRequest`.  The
`fetchUndefined` arm embeds the `TypeError` that destructuring
`{ data }` of an `undefined` runner result would raise (unreachable
with `MAX_RETRIES = 3`).  A run whose send loop resolves `undefined`
resolves successfully — `sendTelegramMessage` only awaits it. -/
def scrapeAndNotify (c : Collab) : PipelineResult :=
  match (retryRequest c.fetchPage isRetriableError RETRY_DELAY MAX_RETRIES).outcome with
  | none => ⟨.error .fetchUndefined, 0, 0⟩
  | some (.error e) => ⟨.error (.fetchFailed e), 0, 0⟩
  | some (.ok html) =>
    match c.locate html with
    | none => ⟨.error .elementNotFound, 1, 0⟩
    | some raw =>
      match cleanJackpotValue (some raw) with
      | .error ce => ⟨.error (.cleanFailed ce), 1, 0⟩
      | .ok (v, _) =>
        let sendRun := retryRequest (c.send (formatMessage v)) isRetriableError
          RETRY_DELAY MAX_RETRIES
        match sendRun.outcome with
        | some (.error e) => ⟨.error (.sendFailed e), 1, sendRun.calls⟩
        | _ => ⟨.ok (formatMessage v), 1, sendRun.calls⟩

def raw5M : List Char := "5 000 000 лева".toList

def clean5M : List Char := "5 000 000 лв.".toList

def reclean5M : List Char := "5 000 000 лв. лв.".toList

def msg5M : List Char := "💰 The current Toto jackpot is: *5 000 000 лв.*".toList

def rawLevata : List Char := "5 000 000 левата".toList

def rawUpper : List Char := "5 000 000 ЛЕВА".toList

def cleanUpper : List Char := "5 000 000 ЛЕВА лв.".toList

def errTimeout : JsError :=
  { name := "Error", message := [], code := some codeETIMEDOUT, responseStatus := none }

def errDNS : JsError :=
  { name := "Error", message := [], code := some codeENOTFOUND, responseStatus := none }

def err404 : JsError :=
  { name := "Error", message := [], code := none, responseStatus := some 404 }

def opFailTwice : Nat → Except JsError Nat := fun n =>
  if n < 2 then .error errTimeout else .ok 42

def collab0 : Collab :=
  { fetchPage := fun _ => .ok ("page".toList), locate := fun _ => none,
    send := fun _ _ => .ok () }

theorem startsWith_iff_exists {m s : List Char} :
    startsWith m s = true ↔ ∃ t, s = m ++ t := by
  induction m generalizing s with
  | nil => simp [startsWith]
  | cons c m ih =>
    cases s with
    | nil => simp [startsWith]
    | cons d s =>
      simp only [startsWith]
      by_cases h : c = d
      · subst h
        rw [if_pos rfl, ih]
        constructor
        · rintro ⟨t, rfl⟩; exact ⟨t, rfl⟩
        · rintro ⟨t, ht⟩
          rw [List.cons_append] at ht
          injection ht with h1 h2
          exact ⟨t, h2⟩
      · rw [if_neg h]
        constructor
        · intro hf; exact absurd hf (by simp)
        · rintro ⟨t, ht⟩
          rw [List.cons_append] at ht
          injection ht with h1 h2
          exact absurd h1.symm h

theorem takeUntilMarker_marker {m : List Char} :
    ∀ s : List Char, containsSub m s = true →
      ∃ t, s = takeUntilMarker m s ++ m ++ t := by
  intro s
  induction s with
  | nil =>
    intro h
    simp only [containsSub, List.isEmpty_iff] at h
    exact ⟨[], by simp [takeUntilMarker, h]⟩
  | cons c rest ih =>
    intro h
    by_cases hp : startsWith m (c :: rest) = true
    · obtain ⟨t, ht⟩ := startsWith_iff_exists.mp hp
      refine ⟨t, ?_⟩
      simp only [takeUntilMarker, if_pos hp, List.nil_append]
      exact ht
    · have hp' : startsWith m (c :: rest) = false := Bool.eq_false_iff.mpr hp
      simp only [containsSub, hp', Bool.false_or] at h
      obtain ⟨t, ht⟩ := ih h
      refine ⟨t, ?_⟩
      simp only [takeUntilMarker, if_neg hp, List.cons_append, List.append_assoc] at *
      exact congrArg (c :: ·) ht

theorem takeUntilMarker_before {m : List Char} :
    ∀ (s : List Char) (i : Nat), i < (takeUntilMarker m s).length →
      startsWith m (s.drop i) = false := by
  intro s
  induction s with
  | nil => intro i hi; simp [takeUntilMarker] at hi
  | cons c rest ih =>
    intro i hi
    by_cases hp : startsWith m (c :: rest) = true
    · simp [takeUntilMarker, hp] at hi
    · cases i with
      | zero =>
        simp only [List.drop_zero]
        exact Bool.eq_false_iff.mpr hp
      | succ j =>
        simp only [takeUntilMarker, if_neg hp, List.length_cons,
          Nat.add_lt_add_iff_right] at hi
        simpa using ih j hi

theorem currencySuffix_eq : currencySuffix = [' ', 'л', 'в', '.'] := rfl

theorem startsWith_suffix_stable (c : Char) :
    ∀ x : List Char,
      startsWith currencySuffix (c :: (x ++ currencySuffix)) =
        startsWith currencySuffix (c :: x) := by
  intro x
  match x with
  | [] => simp [currencySuffix_eq, startsWith]
  | [d] => simp [currencySuffix_eq, startsWith]
  | [d, e] => simp [currencySuffix_eq, startsWith]
  | d :: e :: f :: t => simp [currencySuffix_eq, startsWith]

theorem countOccurrences_append_suffix :
    ∀ x : List Char,
      countOccurrences currencySuffix (x ++ currencySuffix) =
        countOccurrences currencySuffix x + 1 := by
  intro x
  induction x with
  | nil => simp; decide
  | cons c x ih =>
    rw [List.cons_append]
    simp only [countOccurrences]
    rw [startsWith_suffix_stable c x, ih]
    omega

theorem attemptSchedule_natCast (R : Nat) :
    attemptSchedule (R : Int) = List.range (R + 1) := by
  unfold attemptSchedule
  rw [if_neg (by omega), Int.toNat_natCast]

theorem retryLoop_calls_le (f : Nat → Except JsError α) (r : JsError → Bool)
    (D : Nat) (ρ : Int) : ∀ (l : List Nat) (calls d : Nat),
    (retryLoop f r D ρ l calls d).calls ≤ calls + l.length := by
  intro l
  induction l with
  | nil => intro calls d; simp [retryLoop]
  | cons a l ih =>
    intro calls d
    cases hfa : f a with
    | ok v =>
      simp only [retryLoop, hfa, List.length_cons]
      omega
    | error e =>
      simp only [retryLoop, hfa, List.length_cons]
      by_cases hc : (decide ((a : Int) = ρ) || !r e) = true
      · rw [if_pos hc]
        show calls + 1 ≤ calls + (l.length + 1)
        omega
      · rw [if_neg hc]
        have := ih (calls + 1) (d + D * 2 ^ a)
        omega

theorem retryLoop_calls_mono (f : Nat → Except JsError α) (r : JsError → Bool)
    (D : Nat) (ρ : Int) : ∀ (l : List Nat) (calls d : Nat),
    calls ≤ (retryLoop f r D ρ l calls d).calls := by
  intro l
  induction l with
  | nil => intro calls d; simp [retryLoop]
  | cons a l ih =>
    intro calls d
    cases hfa : f a with
    | ok v => simp only [retryLoop, hfa]; omega
    | error e =>
      simp only [retryLoop, hfa]
      by_cases hc : (decide ((a : Int) = ρ) || !r e) = true
      · rw [if_pos hc]
        show calls ≤ calls + 1
        omega
      · rw [if_neg hc]
        have := ih (calls + 1) (d + D * 2 ^ a)
        omega

theorem retryLoop_calls_succ (f : Nat → Except JsError α) (r : JsError → Bool)
    (D : Nat) (ρ : Int) (a : Nat) (l : List Nat) (calls d : Nat) :
    calls + 1 ≤ (retryLoop f r D ρ (a :: l) calls d).calls := by
  cases hfa : f a with
  | ok v => simp only [retryLoop, hfa]; omega
  | error e =>
    simp only [retryLoop, hfa]
    by_cases hc : (decide ((a : Int) = ρ) || !r e) = true
    · rw [if_pos hc]
    · rw [if_neg hc]
      have := retryLoop_calls_mono f r D ρ l (calls + 1) (d + D * 2 ^ a)
      omega

theorem retryLoop_skip (f : Nat → Except JsError α) (r : JsError → Bool)
    (D : Nat) (ρ : Int) :
    ∀ (m k i calls d : Nat), m ≤ k →
      (∀ j, i ≤ j → j < i + m →
        (∃ e, f j = .error e ∧ r e = true) ∧ (j : Int) ≠ ρ) →
      retryLoop f r D ρ (List.range' i k) calls d =
        retryLoop f r D ρ (List.range' (i + m) (k - m)) (calls + m)
          (d + ((List.range' i m).map fun j => D * 2 ^ j).sum) := by
  intro m
  induction m with
  | zero => intro k i calls d _ _; simp
  | succ n ih =>
    intro k i calls d hmk hfail
    match k, hmk with
    | k + 1, _ =>
      rw [List.range'_succ i k 1]
      obtain ⟨⟨e, hfe, hre⟩, hne⟩ := hfail i (le_refl i) (by omega)
      simp only [retryLoop, hfe]
      rw [if_neg (by simp [hne, hre])]
      have hsum : d + ((List.range' i (n + 1)).map fun j => D * 2 ^ j).sum
          = (d + D * 2 ^ i) + ((List.range' (i + 1) n).map fun j => D * 2 ^ j).sum := by
        rw [List.range'_succ i n 1]
        simp only [List.map_cons, List.sum_cons]
        omega
      rw [show i + (n + 1) = (i + 1) + n by omega,
        show (k + 1) - (n + 1) = k - n by omega,
        show calls + (n + 1) = (calls + 1) + n by omega, hsum]
      exact ih k (i + 1) (calls + 1) (d + D * 2 ^ i) (by omega)
        (fun j hj1 hj2 => hfail j (by omega) (by omega))

theorem retryRequest_firstSuccess (f : Nat → Except JsError α) (r : JsError → Bool)
    (D R n : Nat) (a : α) (hn : n ≤ R)
    (hfail : ∀ j, j < n → ∃ e, f j = .error e ∧ r e = true)
    (hok : f n = .ok a) :
    retryRequest f r D (R : Int) =
      ⟨some (.ok a), n + 1, ((List.range n).map fun j => D * 2 ^ j).sum⟩ := by
  unfold retryRequest
  rw [attemptSchedule_natCast, List.range_eq_range',
    retryLoop_skip f r D (R : Int) n (R + 1) 0 0 0 (by omega)
      (fun j hj1 hj2 => ⟨hfail j (by omega), by omega⟩)]
  rw [show R + 1 - n = (R - n) + 1 by omega, List.range'_succ, Nat.zero_add]
  simp only [retryLoop, hok]
  rw [List.range_eq_range']
  simp

theorem retryRequest_allFail (f : Nat → Except JsError α) (r : JsError → Bool)
    (D R : Nat) (e : Nat → JsError)
    (hfail : ∀ j, j ≤ R → f j = .error (e j) ∧ r (e j) = true) :
    retryRequest f r D (R : Int) =
      ⟨some (.error (e R)), R + 1, ((List.range R).map fun j => D * 2 ^ j).sum⟩ := by
  unfold retryRequest
  rw [attemptSchedule_natCast, List.range_eq_range',
    retryLoop_skip f r D (R : Int) R (R + 1) 0 0 0 (by omega)
      (fun j hj1 hj2 => ⟨⟨e j, (hfail j (by omega)).1, (hfail j (by omega)).2⟩, by omega⟩)]
  rw [show R + 1 - R = 1 by omega, List.range'_succ, Nat.zero_add]
  simp only [retryLoop, (hfail R (le_refl R)).1]
  rw [if_pos (by simp)]
  rw [List.range_eq_range']
  simp

theorem retryRequest_terminalFirst (f : Nat → Except JsError α) (r : JsError → Bool)
    (D : Nat) (R : Int) (e : JsError) (hR : 0 ≤ R) (h0 : f 0 = .error e)
    (hterm : r e = false) :
    retryRequest f r D R = ⟨some (.error e), 1, 0⟩ := by
  unfold retryRequest
  have hsched : attemptSchedule R = 0 :: List.range' 1 R.toNat := by
    unfold attemptSchedule
    rw [if_neg (by omega), List.range_eq_range']
    exact List.range'_succ 0 R.toNat 1
  rw [hsched]
  simp only [retryLoop, h0]
  rw [if_pos (by simp [hterm])]

theorem cleanJackpotValue_ok {s v : List Char} {verdict : Verdict}
    (h : cleanJackpotValue (some s) = .ok (v, verdict)) :
    v = jsTrim (wsCollapse (takeUntilMarker levaMarker s)) ++ currencySuffix
    ∧ verdict = classify v ∧ v.any Char.isDigit = true ∧ s ≠ [] := by
  by_cases hs : s = []
  · subst hs; simp [cleanJackpotValue] at h
  · simp only [cleanJackpotValue, if_neg hs] at h
    by_cases hd : (jsTrim (wsCollapse (takeUntilMarker levaMarker s)) ++ currencySuffix).any Char.isDigit = true
    · rw [if_pos hd] at h
      injection h with h1
      injection h1 with hv hverd
      subst hv
      exact ⟨rfl, hverd.symm, hd, hs⟩
    · rw [if_neg hd] at h
      cases h

/-- C3: for every operation and retry count `R ≥ 0`, `retryRequest` invokes
the operation at most `R + 1` times; it returns the first successful
attempt's result with no further invocations (after failing attempts it
makes exactly first-success-index + 1 invocations); if every attempt fails
with a retriable classification it invokes the operation exactly `R + 1`
times and rejects with the error of the final attempt; and with `R = 0`
exactly one invocation occurs regardless of error classification. -/
theorem claim_C3 (f : Nat → Except JsError α) (r : JsError → Bool) (D R : Nat) :
    (retryRequest f r D (R : Int)).calls ≤ R + 1
    ∧ (∀ n a, n ≤ R → (∀ j, j < n → ∃ e, f j = .error e ∧ r e = true) →
        f n = .ok a →
        (retryRequest f r D (R : Int)).outcome = some (.ok a)
        ∧ (retryRequest f r D (R : Int)).calls = n + 1)
    ∧ (∀ e : Nat → JsError, (∀ j, j ≤ R → f j = .error (e j) ∧ r (e j) = true) →
        (retryRequest f r D (R : Int)).outcome = some (.error (e R))
        ∧ (retryRequest f r D (R : Int)).calls = R + 1)
    ∧ (retryRequest f r D (0 : Int)).calls = 1 := by
  refine ⟨?_, ?_, ?_, ?_⟩
  · unfold retryRequest
    rw [attemptSchedule_natCast]
    have := retryLoop_calls_le f r D (R : Int) (List.range (R + 1)) 0 0
    simpa using this
  · intro n a hn hfail hok
    rw [retryRequest_firstSuccess f r D R n a hn hfail hok]
    exact ⟨rfl, rfl⟩
  · intro e hfail
    rw [retryRequest_allFail f r D R e hfail]
    exact ⟨rfl, rfl⟩
  · show (retryLoop f r D 0 (attemptSchedule 0) 0 0).calls = 1
    rw [show attemptSchedule (0 : Int) = [0] from rfl]
    cases hf0 : f 0 with
    | ok v => simp only [retryLoop, hf0]
    | error e =>
      simp only [retryLoop, hf0]
      rw [if_pos (by simp)]

/-- Witness for C3 at a concrete operation failing retriably twice and then
succeeding with value 42, run with `R = 3`. -/
theorem claim_C3_witness :
    (retryRequest opFailTwice isRetriableError 2000 ((3 : Nat) : Int)).outcome
      = some (.ok 42)
    ∧ (retryRequest opFailTwice isRetriableError 2000 ((3 : Nat) : Int)).calls = 3 := by
  have h := (claim_C3 opFailTwice isRetriableError 2000 3).2.1 2 42 (by omega)
    (fun j hj => ⟨errTimeout, by simp [opFailTwice, hj], by decide⟩) (by decide)
  exact h

/-- C5: after each failed attempt numbered `attempt` (0-based) that is not
the last, the runner sleeps `D * 2 ^ attempt` ms, so a run succeeding at
attempt `n` accumulates total backoff `Σ \x7bj < n\x7d D * 2 ^ j`; in
particular an operation failing retriably twice then succeeding is invoked
exactly 3 times with total backoff `D + 2 * D`. -/
theorem claim_C5 (f : Nat → Except JsError α) (r : JsError → Bool) (D R : Nat) :
    (∀ n a, n ≤ R → (∀ j, j < n → ∃ e, f j = .error e ∧ r e = true) →
      f n = .ok a →
      (retryRequest f r D (R : Int)).totalDelay =
        ((List.range n).map fun j => D * 2 ^ j).sum)
    ∧ (∀ e0 e1 a, 2 ≤ R → f 0 = .error e0 → r e0 = true →
        f 1 = .error e1 → r e1 = true → f 2 = .ok a →
        retryRequest f r D (R : Int) = ⟨some (.ok a), 3, D + 2 * D⟩) := by
  constructor
  · intro n a hn hfail hok
    rw [retryRequest_firstSuccess f r D R n a hn hfail hok]
  · intro e0 e1 a hR h0 hr0 h1 hr1 h2
    have hfail : ∀ j, j < 2 → ∃ e, f j = .error e ∧ r e = true := by
      intro j hj
      interval_cases j
      · exact ⟨e0, h0, hr0⟩
      · exact ⟨e1, h1, hr1⟩
    rw [retryRequest_firstSuccess f r D R 2 a (by omega) hfail h2]
    have hsum : ((List.range 2).map fun j => D * 2 ^ j).sum = D + 2 * D := by
      simp [List.range_succ]
      ring
    rw [hsum]

/-- Witness for C5: the twice-failing operation with `D = 2000`, `R = 3`
makes 3 invocations with total backoff `2000 + 2 * 2000`. -/
theorem claim_C5_witness :
    retryRequest opFailTwice isRetriableError 2000 ((3 : Nat) : Int)
      = ⟨some (.ok 42), 3, 2000 + 2 * 2000⟩ :=
  (claim_C5 opFailTwice isRetriableError 2000 3).2 errTimeout errTimeout 42
    (by omega) (by decide) (by decide) (by decide) (by decide) (by decide)

/-- C10: for every operation and every retries value strictly below 0, the
attempt loop body never executes: `retryRequest` resolves successfully with
`undefined` (outcome `none`), with zero invocations and no error. -/
theorem claim_C10 (f : Nat → Except JsError α) (r : JsError → Bool) (D : Nat)
    (retries : Int) (h : retries < 0) :
    retryRequest f r D retries = ⟨none, 0, 0⟩ := by
  unfold retryRequest
  rw [show attemptSchedule retries = [] from by unfold attemptSchedule; rw [if_pos h]]
  rfl

/-- Witness for C10 at `retries = -1`. -/
theorem claim_C10_witness :
    retryRequest (fun _ => (.ok 0 : Except JsError Nat)) isRetriableError 2000 (-1)
      = ⟨none, 0, 0⟩ :=
  claim_C10 _ isRetriableError 2000 (-1) (by decide)

/-- The axios retriability test, spelled out as the disjunction of the
classifications listed in the specification. -/
theorem isRetriableError_iff (e : JsError) :
    isRetriableError e = true ↔
      (e.code = some codeECONNABORTED ∨ e.code = some codeETIMEDOUT ∨
       e.code = some codeENOTFOUND ∨ e.code = some codeECONNREFUSED ∨
       ∃ s, e.responseStatus = some s ∧ 500 ≤ s) := by
  rcases e with ⟨nm, msg, cd, st⟩
  unfold isRetriableError
  cases st with
  | none => simp [or_assoc]
  | some s => simp [or_assoc]

/-- C4 (amended): in the axios-based variant (src/jackpot.js), a failure is
retried (when attempts remain) iff its classification is connection-aborted
(`ECONNABORTED`), connection-timeout (`ETIMEDOUT`), name-resolution-failure
(`ENOTFOUND`), connection-refused (`ECONNREFUSED`), or an upstream response
with status ≥ 500; any other failure (including every 4xx response) is
terminal: the operation is invoked exactly once and the original error is
re-raised unmodified, even though retries remain.  The original claim's
quantification over every implementation variant fails — the puppeteer
variant classifies differently (see the counterexample). -/
theorem claim_C4_amended (f : Nat → Except JsError α) (D : Nat) (R : Int)
    (e : JsError) (hR : 1 ≤ R) (h0 : f 0 = .error e) :
    (isRetriableError e = true ↔
      (e.code = some codeECONNABORTED ∨ e.code = some codeETIMEDOUT ∨
       e.code = some codeENOTFOUND ∨ e.code = some codeECONNREFUSED ∨
       ∃ s, e.responseStatus = some s ∧ 500 ≤ s))
    ∧ (isRetriableError e = false →
        retryRequest f isRetriableError D R = ⟨some (.error e), 1, 0⟩)
    ∧ (isRetriableError e = true →
        2 ≤ (retryRequest f isRetriableError D R).calls) := by
  refine ⟨isRetriableError_iff e, ?_, ?_⟩
  · intro hterm
    exact retryRequest_terminalFirst f isRetriableError D R e (by omega) h0 hterm
  · intro hre
    unfold retryRequest
    have hsched : attemptSchedule R = 0 :: List.range' 1 R.toNat := by
      unfold attemptSchedule
      rw [if_neg (by omega), List.range_eq_range']
      exact List.range'_succ 0 R.toNat 1
    rw [hsched]
    simp only [retryLoop, h0]
    rw [if_neg (by simp [hre]; omega)]
    obtain ⟨m, hm⟩ : ∃ m, R.toNat = m + 1 := ⟨R.toNat - 1, by omega⟩
    rw [hm, List.range'_succ]
    have := retryLoop_calls_succ f isRetriableError D R 1 (List.range' (1 + 1) m 1)
      (0 + 1) (0 + D * 2 ^ 0)
    omega

/-- C4 (counterexample): a name-resolution failure (`ENOTFOUND`) is
retriable under the axios classifier but terminal under the puppeteer
variant's classifier; with `R = 3` retries remaining, the puppeteer-variant
runner invokes an always-`ENOTFOUND` operation exactly once and re-raises
the error — refuting the claim that in every implementation variant a
name-resolution failure is retried. -/
theorem claim_C4_counterexample :
    isRetriableError errDNS = true
    ∧ isRetriablePuppeteer errDNS = false
    ∧ retryRequest (fun _ => (.error errDNS : Except JsError Unit)) isRetriablePuppeteer
        RETRY_DELAY MAX_RETRIES = ⟨some (.error errDNS), 1, 0⟩ := by
  refine ⟨by decide, by decide, by decide⟩

/-- Witness for C4 (amended) at a concrete HTTP 404 failure: one
invocation, error re-raised unmodified. -/
theorem claim_C4_witness :
    retryRequest (fun _ => (.error err404 : Except JsError Unit)) isRetriableError
      RETRY_DELAY MAX_RETRIES = ⟨some (.error err404), 1, 0⟩ :=
  (claim_C4_amended (fun _ => (.error err404 : Except JsError Unit)) RETRY_DELAY
    MAX_RETRIES err404 (by decide) rfl).2.1 (by decide)

/-- C8: whenever the element locator finds no target element in the
successfully fetched page, the run fails with kind element-not-found, the
locator is invoked exactly once (not retried), and the message sender is
never invoked during that run. -/
theorem claim_C8 (c : Collab) (html : List Char)
    (hfetch : (retryRequest c.fetchPage isRetriableError RETRY_DELAY MAX_RETRIES).outcome
      = some (.ok html))
    (hloc : c.locate html = none) :
    scrapeAndNotify c = ⟨.error .elementNotFound, 1, 0⟩ := by
  unfold scrapeAndNotify
  simp only [hfetch, hloc]

/-- Witness for C8 with collaborators whose fetch succeeds and whose
locator finds nothing. -/
theorem claim_C8_witness :
    scrapeAndNotify collab0 = ⟨.error .elementNotFound, 1, 0⟩ :=
  claim_C8 collab0 ("page".toList) (by decide) rfl

/-- C6: `cleanJackpotValue` fails with kind empty-input iff the raw extract
is absent or empty; it fails with kind no-digits iff the string obtained
after truncation, whitespace normalization and suffix-appending contains no
digit; in every other case it returns a value containing at least one
digit — a canonical value is never constructed from an input failing the
digit-presence check. -/
theorem claim_C6 (r : Option (List Char)) :
    (cleanJackpotValue r = .error .emptyInput ↔ r = none ∨ r = some [])
    ∧ (cleanJackpotValue r = .error .noDigits ↔
        ∃ s, r = some s ∧ s ≠ [] ∧
          (jsTrim (wsCollapse (takeUntilMarker levaMarker s)) ++ currencySuffix).any
            Char.isDigit = false)
    ∧ (∀ v verdict, cleanJackpotValue r = .ok (v, verdict) →
        v.any Char.isDigit = true) := by
  rcases r with _ | s
  · refine ⟨by simp [cleanJackpotValue], by simp [cleanJackpotValue], ?_⟩
    intro v verdict h
    cases h
  · by_cases hs : s = []
    · subst hs
      refine ⟨by simp [cleanJackpotValue], ?_, ?_⟩
      · simp [cleanJackpotValue]
      · intro v verdict h
        simp [cleanJackpotValue] at h
    · by_cases hd : (jsTrim (wsCollapse (takeUntilMarker levaMarker s)) ++ currencySuffix).any Char.isDigit = true
      · have hclean : cleanJackpotValue (some s) =
            .ok (jsTrim (wsCollapse (takeUntilMarker levaMarker s)) ++ currencySuffix,
              classify (jsTrim (wsCollapse (takeUntilMarker levaMarker s)) ++ currencySuffix)) := by
          simp only [cleanJackpotValue, if_neg hs, if_pos hd]
        refine ⟨?_, ?_, ?_⟩
        · rw [hclean]
          constructor
          · intro h; cases h
          · rintro (h | h)
            · cases h
            · injection h with h2; exact absurd h2 hs
        · rw [hclean]
          constructor
          · intro h; cases h
          · rintro ⟨s', hss', hne', hdig'⟩
            injection hss' with h2
            subst h2
            rw [hd] at hdig'
            exact Bool.noConfusion hdig'
        · intro v verdict h
          exact (cleanJackpotValue_ok h).2.2.1
      · have hd' : (jsTrim (wsCollapse (takeUntilMarker levaMarker s)) ++ currencySuffix).any Char.isDigit = false :=
          Bool.eq_false_iff.mpr hd
        have hclean : cleanJackpotValue (some s) = .error .noDigits := by
          simp only [cleanJackpotValue, if_neg hs, if_neg hd]
        refine ⟨?_, ?_, ?_⟩
        · rw [hclean]
          constructor
          · intro h
            injection h with h2
            exact CleanError.noConfusion h2
          · rintro (h | h)
            · cases h
            · injection h with h2; exact absurd h2 hs
        · rw [hclean]
          constructor
          · intro _
            exact ⟨s, rfl, hs, hd'⟩
          · intro _
            rfl
        · intro v verdict h
          rw [hclean] at h
          cases h

/-- Witness for C6: an absent input fails with empty-input and a digitless
input fails with no-digits. -/
theorem claim_C6_witness :
    cleanJackpotValue none = .error .emptyInput
    ∧ cleanJackpotValue (some ("без числа лева".toList)) = .error .noDigits := by
  constructor
  · exact (claim_C6 none).1.mpr (Or.inl rfl)
  · exact (claim_C6 (some ("без числа лева".toList))).2.1.mpr
      ⟨_, rfl, by decide, by decide⟩

/-- C7: for every input that passes the digit-presence check, the returned
value is the normalized suffixed string — the same value whatever the
verdict — and the verdict is computed by stripping every character that is
not a digit or a decimal separator, parsing the remainder with `parseFloat`,
and classifying: below 1000 suspiciously-low, above 100000000
suspiciously-high, and otherwise — including parse failure (`NaN`) —
within-range.  The classification is a total function: it never throws. -/
theorem claim_C7 (raw v : List Char) (verdict : Verdict)
    (h : cleanJackpotValue (some raw) = .ok (v, verdict)) :
    v = jsTrim (wsCollapse (takeUntilMarker levaMarker raw)) ++ currencySuffix
    ∧ verdict = classify v
    ∧ (jsParseFloat (stripNonNumeric v) = none → verdict = .withinRange)
    ∧ (∀ q, jsParseFloat (stripNonNumeric v) = some q →
        ((verdict = .suspiciouslyLow ↔ q < 1000) ∧
         (verdict = .suspiciouslyHigh ↔ 100000000 < q))) := by
  obtain ⟨hv, hverd, hdig, hne⟩ := cleanJackpotValue_ok h
  refine ⟨hv, hverd, ?_, ?_⟩
  · intro hp
    rw [hverd]
    simp only [classify, hp]
  · intro q hq
    rw [hverd]
    simp only [classify, hq]
    by_cases h1 : q < 1000
    · rw [if_pos h1]
      have h2 : ¬(100000000 < q) := by linarith
      simp [h1, h2]
    · rw [if_neg h1]
      by_cases h2 : 100000000 < q
      · rw [if_pos h2]
        simp [h1, h2]
      · rw [if_neg h2]
        simp [h1, h2]

/-- Witness for C7 at the canonical example: the verdict reported for
"5 000 000 лв." is within-range. -/
theorem claim_C7_witness :
    Verdict.withinRange = classify clean5M := by
  have h : cleanJackpotValue (some raw5M) = .ok (clean5M, .withinRange) := by decide
  exact (claim_C7 raw5M clean5M .withinRange h).2.1

/-- C1: for every raw extract containing the marker word "лева",
`cleanJackpotValue` discards the marker and all text after its first
occurrence (the kept text is exactly the part before the first occurrence),
collapses whitespace in the kept prefix, strips leading/trailing whitespace,
and appends the suffix " лв." exactly once; in particular
`"5 000 000 лева"` cleans to `"5 000 000 лв."` with verdict within-range,
and the delivered message embedding it equals
`"💰 The current Toto jackpot is: *5 000 000 лв.*"`. -/
theorem claim_C1 :
    (∀ s : List Char, containsSub levaMarker s = true →
      (∃ t, s = takeUntilMarker levaMarker s ++ levaMarker ++ t)
      ∧ (∀ i, i < (takeUntilMarker levaMarker s).length →
          startsWith levaMarker (s.drop i) = false)
      ∧ (∀ v verdict, cleanJackpotValue (some s) = .ok (v, verdict) →
          v = jsTrim (wsCollapse (takeUntilMarker levaMarker s)) ++ currencySuffix))
    ∧ cleanJackpotValue (some raw5M) = .ok (clean5M, .withinRange)
    ∧ formatMessage clean5M = msg5M := by
  refine ⟨?_, by decide, by decide⟩
  intro s hc
  exact ⟨takeUntilMarker_marker s hc, takeUntilMarker_before s,
    fun v verdict h => (cleanJackpotValue_ok h).1⟩

/-- Witness for C1 at the canonical example string. -/
theorem claim_C1_witness :
    clean5M = jsTrim (wsCollapse (takeUntilMarker levaMarker raw5M)) ++ currencySuffix :=
  (claim_C1.1 raw5M (by decide)).2.2 clean5M .withinRange (by decide)

/-- C2 (counterexample): the canonical value "5 000 000 лв." produced from
"5 000 000 лева" contains exactly one occurrence of " лв.", but feeding it
back through `cleanJackpotValue` yields "5 000 000 лв. лв." containing two
occurrences — refuting the claim that re-normalization yields exactly one
suffix occurrence. -/
theorem claim_C2_counterexample :
    cleanJackpotValue (some raw5M) = .ok (clean5M, .withinRange)
    ∧ cleanJackpotValue (some clean5M) = .ok (reclean5M, .withinRange)
    ∧ countOccurrences currencySuffix clean5M = 1
    ∧ countOccurrences currencySuffix reclean5M = 2 :=
  ⟨by decide, by decide, by decide, by decide⟩

/-- C2 (amended): normalization is NOT suffix-idempotent: for every
already-canonical value `v` — nonempty, unchanged by marker truncation,
whitespace collapsing and trimming, containing a digit and exactly one
occurrence of " лв." — feeding `v` back through `cleanJackpotValue`
unconditionally appends a second suffix, yielding exactly two occurrences
of " лв.", never one. -/
theorem claim_C2_amended (v : List Char) (hne : v ≠ [])
    (hmark : takeUntilMarker levaMarker v = v)
    (hcol : wsCollapse v = v) (htrim : jsTrim v = v)
    (hdig : (v ++ currencySuffix).any Char.isDigit = true)
    (hone : countOccurrences currencySuffix v = 1) :
    cleanJackpotValue (some v) =
      .ok (v ++ currencySuffix, classify (v ++ currencySuffix))
    ∧ countOccurrences currencySuffix (v ++ currencySuffix) = 2 := by
  constructor
  · simp only [cleanJackpotValue, if_neg hne, hmark, hcol, htrim, if_pos hdig]
  · rw [countOccurrences_append_suffix v, hone]

/-- Witness for C2 (amended) at the produced canonical value
"5 000 000 лв.". -/
theorem claim_C2_witness :
    cleanJackpotValue (some clean5M) =
      .ok (clean5M ++ currencySuffix, classify (clean5M ++ currencySuffix))
    ∧ countOccurrences currencySuffix (clean5M ++ currencySuffix) = 2 :=
  claim_C2_amended clean5M (by decide) (by decide) (by decide) (by decide)
    (by decide) (by decide)

/-- C9: truncation at the currency marker is a case-sensitive substring
match, not a word match: "5 000 000 левата" contains the character sequence
"лева" inside the longer word and is truncated there, cleaning to
"5 000 000 лв.", while the differently-cased "5 000 000 ЛЕВА" contains no
marker occurrence and cleans to "5 000 000 ЛЕВА лв." with the uppercase
word kept in the output. -/
theorem claim_C9 :
    containsSub levaMarker rawLevata = true
    ∧ cleanJackpotValue (some rawLevata) = .ok (clean5M, .withinRange)
    ∧ containsSub levaMarker rawUpper = false
    ∧ cleanJackpotValue (some rawUpper) = .ok (cleanUpper, .withinRange) :=
  ⟨by decide, by decide, by decide, by decide⟩
